import Mathlib

/-!
Verification of the slot-scheduling core of a single-resource appointment
scheduler (a Telegram barber-shop booking bot, `barber_bot.py`).

The Python source is shallowly embedded below: pure functions become Lean
functions over `Nat`/`Int`/`String`/`List`, the process-wide reservation
dictionary becomes an association list with Python-dict insert/pop
semantics, and the callback handlers that mutate it become explicit step
relations.  Strings are processed over their character lists so that all
definitions are executable and kernel-reducible.
-/

namespace BarberBot

/-! ### Character-level helpers for strptime/strftime embeddings -/

/-- Split a character list on a separator character (like `str.split(sep)`
for a single-character separator: `splitOnChar c "a-b"` gives the pieces
between occurrences of `c`, keeping empty pieces). -/
def splitOnChar (sep : Char) : List Char → List (List Char)
  | [] => [[]]
  | c :: rest =>
    let r := splitOnChar sep rest
    if c = sep then [] :: r
    else
      match r with
      | h :: t => (c :: h) :: t
      | [] => [[c]]

def isDigitChar (c : Char) : Bool := 48 ≤ c.toNat && c.toNat ≤ 57

def digitVal (c : Char) : Nat := c.toNat - 48

def digitsToNat (l : List Char) : Nat := l.foldl (fun a c => a * 10 + digitVal c) 0

def allDigits (l : List Char) : Bool := (decide (l ≠ [])) && l.all isDigitChar

def digitChar (n : Nat) : Char := Char.ofNat (48 + n)

/-- Render a number with at least two digits, zero padded (printf `%02d`). -/
def pad2 (n : Nat) : List Char :=
  if n < 10 then ['0', digitChar n] else [digitChar (n / 10 % 10), digitChar (n % 10)]

/-- Render a year with four digits, zero padded (printf `%04d`). -/
def pad4 (n : Nat) : List Char :=
  [digitChar (n / 1000 % 10), digitChar (n / 100 % 10), digitChar (n / 10 % 10),
   digitChar (n % 10)]

/-- Uppercase the letters that can occur in a 12-hour-clock meridiem suffix;
`strptime`'s `%p` matches `AM`/`PM` case-insensitively. -/
def upChar (c : Char) : Char :=
  if c = 'a' then 'A' else if c = 'p' then 'P' else if c = 'm' then 'M' else c

/-! ### Time parsing and formatting

`datetime.strptime(s, "%I:%M %p")`, embedded as a partial function from
strings to minutes-after-midnight (`%I` is a 1-2 digit hour in 1..12, `%M`
a 1-2 digit minute in 0..59, `%p` is `AM`/`PM` case-insensitively). -/

def parseTime12 (s : String) : Option Nat :=
  match splitOnChar ' ' s.data with
  | [hm, ap] =>
    match splitOnChar ':' hm with
    | [hs, ms] =>
      if allDigits hs && decide (hs.length ≤ 2) && allDigits ms && decide (ms.length ≤ 2) then
        let h := digitsToNat hs
        let mi := digitsToNat ms
        if 1 ≤ h && h ≤ 12 && mi ≤ 59 then
          let apU := ap.map upChar
          if apU = ['A', 'M'] then some ((h % 12) * 60 + mi)
          else if apU = ['P', 'M'] then some ((h % 12 + 12) * 60 + mi)
          else none
        else none
      else none
    | _ => none
  | _ => none

/-- `dt.strftime("%I:%M %p")` for a time given as minutes after midnight. -/
def formatTime12 (m : Nat) : String :=
  let h := m / 60 % 24
  let h12 := if h % 12 = 0 then 12 else h % 12
  String.mk (pad2 h12 ++ [':'] ++ pad2 (m % 60) ++ [' '] ++
    (if h < 12 then ['A', 'M'] else ['P', 'M']))

/-! ### Calendar dates

`datetime.strptime(s, "%Y-%m-%d").date()` and `date.strftime("%Y-%m-%d")`,
plus the day arithmetic `date + timedelta(days=1)` and the proleptic
Gregorian ordinal used for `datetime` subtraction. -/

structure CivilDate where
  year : Nat
  month : Nat
  day : Nat
deriving DecidableEq, Repr

def isLeap (y : Nat) : Bool := y % 4 == 0 && (y % 100 != 0 || y % 400 == 0)

def daysInMonth (y m : Nat) : Nat :=
  match m with
  | 1 => 31
  | 2 => if isLeap y then 29 else 28
  | 3 => 31
  | 4 => 30
  | 5 => 31
  | 6 => 30
  | 7 => 31
  | 8 => 31
  | 9 => 30
  | 10 => 31
  | 11 => 30
  | _ => 31

def parseDate (s : String) : Option CivilDate :=
  match splitOnChar '-' s.data with
  | [ys, ms, ds] =>
    if allDigits ys && decide (ys.length = 4) && allDigits ms && decide (ms.length ≤ 2)
        && allDigits ds && decide (ds.length ≤ 2) then
      let y := digitsToNat ys
      let mo := digitsToNat ms
      let d := digitsToNat ds
      if 1 ≤ y && 1 ≤ mo && mo ≤ 12 && 1 ≤ d && d ≤ daysInMonth y mo then
        some ⟨y, mo, d⟩
      else none
    else none
  | _ => none

def formatDate (d : CivilDate) : String :=
  String.mk (pad4 d.year ++ ['-'] ++ pad2 d.month ++ ['-'] ++ pad2 d.day)

/-- `date + timedelta(days=1)`. -/
def nextDay (d : CivilDate) : CivilDate :=
  if d.day < daysInMonth d.year d.month then ⟨d.year, d.month, d.day + 1⟩
  else if d.month < 12 then ⟨d.year, d.month + 1, 1⟩
  else ⟨d.year + 1, 1, 1⟩

/-- Days in whole years before year `y` (CPython `datetime._days_before_year`). -/
def daysBeforeYear (y : Nat) : Nat :=
  365 * (y - 1) + (y - 1) / 4 - (y - 1) / 100 + (y - 1) / 400

/-- Days in whole months of year `y` before month `m`. -/
def daysBeforeMonth (y m : Nat) : Nat :=
  ((List.range (m - 1)).map (fun k => daysInMonth y (k + 1))).foldl (· + ·) 0

/-- Proleptic Gregorian ordinal of a date (CPython `datetime.toordinal`). -/
def toOrdinal (d : CivilDate) : Nat :=
  daysBeforeYear d.year + daysBeforeMonth d.year d.month + d.day

/-- A `datetime` value as seconds on the proleptic Gregorian timeline;
`datetime` subtraction is subtraction of these values. -/
def startSec (d : CivilDate) (minutes : Nat) : Int :=
  (toOrdinal d : Int) * 86400 + (minutes : Int) * 60

/-! ### Slot generation (`generate_slots_for_date`)

Configuration constants of the source. -/

def SLOT_INTERVAL_MINUTES : Nat := 40

def OPEN_TIME_STR : String := "08:00 AM"

def CLOSE_TIME_STR : String := "08:00 PM"

def RECOMMEND_LIMIT : Nat := 5

def openMinutes : Nat := (parseTime12 OPEN_TIME_STR).getD 0

def closeMinutes : Nat := (parseTime12 CLOSE_TIME_STR).getD 0

/-- The `while cur <= end_dt` loop of `generate_slots_for_date`, emitting
`cur.strftime("%I:%M %p")` and advancing by `SLOT_INTERVAL_MINUTES`.
The loop body runs at most `endm + 1` times (the interval is ≥ 1 minute),
so recursing structurally on that bound reproduces the `while` loop
exactly while keeping the definition kernel-reducible. -/
def slotGo : Nat → Nat → Nat → List String
  | 0, _, _ => []
  | fuel + 1, cur, endm =>
    if cur ≤ endm then formatTime12 cur :: slotGo fuel (cur + SLOT_INTERVAL_MINUTES) endm
    else []

def slotLoop (cur endm : Nat) : List String := slotGo (endm + 1) cur endm

/-- `generate_slots_for_date(date_str_iso)`.  The Python function parses the
date (falling back to today on a parse failure) only to build the
`datetime` values it walks over; the emitted labels use `"%I:%M %p"`, a
time-only format, so the returned list is the same for every argument. -/
def generate_slots_for_date (_date_str_iso : String) : List String :=
  slotLoop openMinutes closeMinutes

/-! ### The reservation store

`reservations` is a Python dict `user_id -> reservation dict`; we embed it
as an association list with dict semantics: assignment replaces the value
in place for an existing key and appends for a fresh key, `pop` removes
the key, `.values()` is the list of values in insertion order. -/

structure Res where
  name : String
  phone : String
  date : String
  time : String
  people : Nat
deriving DecidableEq, Repr

abbrev Store := List (Nat × Res)

def values (s : Store) : List Res := s.map Prod.snd

/-- `reservations[user_id] = r` (Python dict assignment). -/
def dinsert (u : Nat) (r : Res) (s : Store) : Store :=
  if s.any (fun q => q.1 == u) then
    s.map (fun q => if q.1 = u then (u, r) else q)
  else s ++ [(u, r)]

/-- `reservations.pop(user_id)`'s effect on the dict. -/
def dpop (u : Nat) (s : Store) : Store := s.filter (fun q => q.1 != u)

def dlookup (u : Nat) (s : Store) : Option Res :=
  match s.find? (fun q => q.1 == u) with
  | some q => some q.2
  | none => none

/-! ### Availability engine (`slot_is_free`) -/

/-- `slots.index(t)`: position of the first occurrence, `none` when absent
(Python raises `ValueError` there). -/
def pyIndex (l : List String) (t : String) : Option Nat :=
  match l with
  | [] => none
  | s :: rest => if s = t then some 0 else (pyIndex rest t).map (· + 1)

/-- Locate a stored reservation time in the day's slot list: first
`slots.index(other_time)` directly; on failure re-format the string through
`strptime`/`strftime` ("%I:%M %p") and look the normalized form up; when
that also fails the caller treats the day conservatively. -/
def locIndex (slots : List String) (t : String) : Option Nat :=
  match pyIndex slots t with
  | some i => some i
  | none =>
    match parseTime12 t with
    | some m => pyIndex slots (formatTime12 m)
    | none => none

/-- The `for other in reservations_dict.values()` loop of `slot_is_free`:
skip other-date reservations; fail closed when a stored time cannot be
located; fail when the candidate span `[ci, ne)` overlaps the other span. -/
def checkOthers (slots : List String) (d : String) (ci ne : Nat) : List Res → Bool
  | [] => true
  | r :: rest =>
    if r.date = d then
      match locIndex slots r.time with
      | none => false
      | some oi =>
        if ne ≤ oi ∨ oi + r.people ≤ ci then checkOthers slots d ci ne rest
        else false
    else checkOthers slots d ci ne rest

/-- `slot_is_free(check_date_iso, candidate_slot_str, people, reservations_dict)`. -/
def slot_is_free (check_date candidate : String) (people : Nat) (resv : Store) : Bool :=
  let slots := generate_slots_for_date check_date
  match pyIndex slots candidate with
  | none => false
  | some ci =>
    if ci + people > slots.length then false
    else checkOthers slots check_date ci (ci + people) (values resv)

/-! ### Recommendation search (`recommend_slots`) -/

/-- One pass of `recommend_slots` over a day's slot list: append each free
slot, breaking as soon as the accumulated result count reaches
`RECOMMEND_LIMIT`; `k` is the number of results accumulated so far. -/
def scanSlots (d : String) (people : Nat) (resv : Store) :
    List String → Nat → List (String × String)
  | [], _ => []
  | s :: rest, k =>
    if slot_is_free d s people resv then
      if RECOMMEND_LIMIT ≤ k + 1 then [(s, d)]
      else (s, d) :: scanSlots d people resv rest (k + 1)
    else scanSlots d people resv rest k

/-- `recommend_slots(date_str_iso, time_str, people, reservations_dict)`.
`today` stands for `datetime.now().date()`, used only by the
fall-back-on-parse-failure policy. -/
def recommend_slots (today : CivilDate) (date_str time_str : String) (people : Nat)
    (resv : Store) : List (String × String) :=
  let selected0 := (parseDate date_str).getD today
  let requested := (parseTime12 time_str).getD openMinutes
  let selected := if 1200 ≤ requested then nextDay selected0 else selected0
  let cur := formatDate selected
  let results := scanSlots cur people resv (generate_slots_for_date cur) 0
  if results.isEmpty then
    let nd := formatDate (nextDay selected)
    scanSlots nd people resv (generate_slots_for_date nd) 0
  else results

/-- Chronological comparison of two slot labels (both labels of interest
parse under `"%I:%M %p"`). -/
def timeLtB (a b : String) : Bool :=
  decide ((parseTime12 a).getD 0 < (parseTime12 b).getD 0)

/-! ### Cancellation eligibility (`can_cancel_reservation`)

The handler reads `context.user_data["active_reservation"]` (an optional
reservation) and compares the parsed `"{date} {time}"` start against
`datetime.now()`; `nowSec` stands for the latter, in seconds on the same
timeline as `startSec`. -/

def can_cancel_reservation (active : Option Res) (nowSec : Int) : Bool :=
  match active with
  | none => false
  | some r =>
    match parseDate r.date, parseTime12 r.time with
    | some dd, some tm => decide (startSec dd tm - nowSec > 7200)
    | _, _ => false
    -- a parse failure lands in the handler's `except` clause: return False

/-! ### The booking handlers' effect on the store

`context.user_data` at the moment the `final_confirm` callback fires:
name and phone collected by `handle_text`, date/time/people by the
selection callbacks.  Any field can still be missing (`None`). -/

structure UserData where
  name : Option String
  phone : Option String
  date : Option String
  time : Option String
  people : Nat
deriving DecidableEq, Repr

/-- Python truthiness of an optional string (`None` and `""` are falsy). -/
def truthy : Option String → Bool
  | none => false
  | some s => s != ""

def pendingRes (ud : UserData) : Res :=
  ⟨ud.name.getD "", ud.phone.getD "", ud.date.getD "", ud.time.getD "", ud.people⟩

/-- The `final_confirm` branch of `handle_buttons`, restricted to its effect
on the `reservations` dict: validate that name, phone, date and time are
all present and non-empty, then save `reservations[user_id] = {...}`.
No availability check happens here. -/
def final_confirm (u : Nat) (ud : UserData) (resv : Store) : Store :=
  if truthy ud.name && truthy ud.phone && truthy ud.date && truthy ud.time then
    dinsert u (pendingRes ud) resv
  else resv

/-- The `confirm_people` branch's guard: the flow proceeds to name/phone
collection only when `slot_is_free` holds at that moment. -/
def confirm_people_ok (d t : String) (people : Nat) (resv : Store) : Bool :=
  slot_is_free d t people resv

/-- The `cancel_booking` branch of `handle_buttons`, restricted to its
effect on the `reservations` dict: `reservations.pop(user_id)`. -/
def cancel_booking (u : Nat) (resv : Store) : Store := dpop u resv

/-! ### Daily summary (`send_daily_summary`) -/

/-- The open-section computation of `send_daily_summary`:
`[s for s in slots if all(r["time"] != s for r in reservations.values()
if r["date"] == today_str)]`. -/
def open_slots (today_str : String) (resv : Store) : List String :=
  (generate_slots_for_date today_str).filter
    (fun s => (values resv).all (fun r => if r.date = today_str then r.time != s else true))

/-! ### The no-double-booking invariant -/

/-- The span of slot indices an active reservation occupies on its date,
when its stored time can be located in the day's enumeration. -/
def resSpan (r : Res) : Option (Nat × Nat) :=
  match locIndex (generate_slots_for_date r.date) r.time with
  | some i => some (i, i + r.people)
  | none => none

/-- Two store entries are compatible when, on a shared date, their located
spans are disjoint. -/
def resCompatB (p q : Nat × Res) : Bool :=
  if p.2.date = q.2.date then
    match resSpan p.2, resSpan q.2 with
    | some a, some b => decide (a.2 ≤ b.1 ∨ b.2 ≤ a.1)
    | _, _ => true
  else true

/-- Pairwise disjointness of the spans of all active same-date reservations
in the store (the spec's §3 invariant). -/
def invariantB : Store → Bool
  | [] => true
  | p :: rest => rest.all (resCompatB p) && invariantB rest

/-- The store's keys (user ids) are pairwise distinct, as in a Python dict. -/
def keysNodupB : Store → Bool
  | [] => true
  | p :: rest => rest.all (fun q => q.1 != p.1) && keysNodupB rest

/-! ### Program step relations

`MState` is the process-wide mutable state relevant to booking: the shared
`reservations` dict plus each user's `context.user_data`.  `Step` captures
the store-relevant handler transitions the program can interleave across
users: a user passes the `confirm_people` availability gate and finishes
name/phone entry (which does not touch the store), a user fires
`final_confirm` (which commits with no further availability check), and a
user fires `cancel_booking`. -/

structure MState where
  resv : Store
  ud : List (Nat × UserData)
deriving DecidableEq, Repr

/-- Python dict assignment for the per-user `user_data` map. -/
def udinsert (u : Nat) (v : UserData) (m : List (Nat × UserData)) : List (Nat × UserData) :=
  if m.any (fun q => q.1 == u) then
    m.map (fun q => if q.1 = u then (u, v) else q)
  else m ++ [(u, v)]

def udlookup (u : Nat) (m : List (Nat × UserData)) : Option UserData :=
  match m.find? (fun q => q.1 == u) with
  | some q => some q.2
  | none => none

inductive Step : MState → MState → Prop where
  | select (s : MState) (u : Nat) (d t name phone : String) (p : Nat)
      (hfree : slot_is_free d t p s.resv = true) :
      Step s ⟨s.resv, udinsert u ⟨some name, some phone, some d, some t, p⟩ s.ud⟩
  | confirm (s : MState) (u : Nat) (v : UserData) (hud : udlookup u s.ud = some v) :
      Step s ⟨final_confirm u v s.resv, s.ud⟩
  | cancel (s : MState) (u : Nat) :
      Step s ⟨cancel_booking u s.resv, s.ud⟩

/-- The create/cancel operations with the availability re-check placed
immediately before the commit (an atomic check-then-write): the semantics
under which the §3 invariant is actually preserved. -/
inductive AtomicStep : Store → Store → Prop where
  | create (s : Store) (u : Nat) (r : Res)
      (hfree : slot_is_free r.date r.time r.people s = true) :
      AtomicStep s (dinsert u r s)
  | cancel (s : Store) (u : Nat) : AtomicStep s (dpop u s)

/-! ### Lemmas about `pyIndex` -/

theorem pyIndex_some {l : List String} {t : String} {i : Nat}
    (h : pyIndex l t = some i) : ∃ hi : i < l.length, l.get ⟨i, hi⟩ = t := by
  induction l generalizing i with
  | nil => simp [pyIndex] at h
  | cons s rest ih =>
    by_cases hs : s = t
    · simp only [pyIndex, if_pos hs, Option.some.injEq] at h
      subst h
      exact ⟨Nat.succ_pos _, hs⟩
    · simp only [pyIndex, if_neg hs, Option.map_eq_some'] at h
      obtain ⟨j, hj, rfl⟩ := h
      obtain ⟨hlt, hget⟩ := ih hj
      exact ⟨Nat.succ_lt_succ hlt, hget⟩

theorem pyIndex_eq_none_iff {l : List String} {t : String} :
    pyIndex l t = none ↔ t ∉ l := by
  induction l with
  | nil => simp [pyIndex]
  | cons s rest ih =>
    by_cases hs : s = t
    · simp [pyIndex, hs]
    · simp [pyIndex, hs, ih, Ne.symm hs]

theorem pyIndex_get {l : List String} (hn : l.Nodup) (j : Nat) (hj : j < l.length) :
    pyIndex l (l.get ⟨j, hj⟩) = some j := by
  induction l generalizing j with
  | nil => simp at hj
  | cons s rest ih =>
    rcases List.nodup_cons.mp hn with ⟨hs, hrest⟩
    cases j with
    | zero => simp [pyIndex]
    | succ j =>
      have hj' : j < rest.length := Nat.lt_of_succ_lt_succ hj
      have hmem : rest.get ⟨j, hj'⟩ ∈ rest := List.get_mem rest j hj'
      have hne : s ≠ rest.get ⟨j, hj'⟩ := fun he => hs (he ▸ hmem)
      simp only [List.get_cons_succ]
      simp only [pyIndex, if_neg hne, ih hrest j hj']
      rfl

theorem locIndex_of_pyIndex {slots : List String} {t : String} {i : Nat}
    (h : pyIndex slots t = some i) : locIndex slots t = some i := by
  simp [locIndex, h]

/-! ### Characterization of `slot_is_free` -/

theorem checkOthers_eq_true_iff (slots : List String) (d : String) (ci ne : Nat)
    (rs : List Res) :
    checkOthers slots d ci ne rs = true ↔
      ∀ r ∈ rs, r.date = d →
        ∃ oi, locIndex slots r.time = some oi ∧ (ne ≤ oi ∨ oi + r.people ≤ ci) := by
  induction rs with
  | nil => simp [checkOthers]
  | cons r rest ih =>
    simp only [checkOthers, List.forall_mem_cons]
    by_cases hd : r.date = d
    · simp only [if_pos hd]
      cases hloc : locIndex slots r.time with
      | none =>
        simp only [hloc]
        constructor
        · intro h; exact absurd h (by simp)
        · rintro ⟨h1, -⟩
          obtain ⟨oi, hoi, -⟩ := h1 hd
          simp at hoi
      | some oi =>
        simp only [hloc]
        by_cases hov : ne ≤ oi ∨ oi + r.people ≤ ci
        · simp only [if_pos hov, ih]
          constructor
          · intro h
            exact ⟨fun _ => ⟨oi, rfl, hov⟩, h⟩
          · exact fun h => h.2
        · simp only [if_neg hov]
          constructor
          · intro h; exact absurd h (by simp)
          · rintro ⟨h1, -⟩
            obtain ⟨oi', hoi', hov'⟩ := h1 hd
            cases hoi'
            exact absurd hov' hov
    · simp only [if_neg hd, ih]
      constructor
      · exact fun h => ⟨fun hd' => absurd hd' hd, h⟩
      · exact fun h => h.2

theorem slot_is_free_true_iff (d t : String) (p : Nat) (resv : Store) :
    slot_is_free d t p resv = true ↔
      ∃ ci, pyIndex (generate_slots_for_date d) t = some ci ∧
        ci + p ≤ (generate_slots_for_date d).length ∧
        ∀ r ∈ values resv, r.date = d →
          ∃ oi, locIndex (generate_slots_for_date d) r.time = some oi ∧
            (ci + p ≤ oi ∨ oi + r.people ≤ ci) := by
  simp only [slot_is_free]
  cases hpy : pyIndex (generate_slots_for_date d) t with
  | none => simp
  | some ci =>
    dsimp only
    by_cases hlen : ci + p > (generate_slots_for_date d).length
    · rw [if_pos hlen]
      constructor
      · intro h; exact absurd h (by simp)
      · rintro ⟨ci', hci', hle, -⟩
        cases hci'
        omega
    · rw [if_neg hlen, checkOthers_eq_true_iff]
      constructor
      · intro h
        exact ⟨ci, rfl, by omega, h⟩
      · rintro ⟨ci', hci', -, h⟩
        cases hci'
        exact h

/-! ### Store lemmas -/

theorem mem_values_dinsert (u : Nat) (r : Res) (s : Store) :
    r ∈ values (dinsert u r s) := by
  unfold dinsert
  by_cases hany : s.any (fun q => q.1 == u) = true
  · rw [if_pos hany]
    obtain ⟨q, hq, hqu⟩ := List.any_eq_true.mp hany
    have hqu' : q.1 = u := by simpa using hqu
    have hmem : (u, r) ∈ s.map (fun q => if q.1 = u then (u, r) else q) :=
      List.mem_map.mpr ⟨q, hq, by rw [if_pos hqu']⟩
    exact List.mem_map.mpr ⟨(u, r), hmem, rfl⟩
  · rw [if_neg hany]
    simp [values]

theorem filter_map_replace (u : Nat) (r : Res) (s : Store) :
    (s.map (fun q => if q.1 = u then (u, r) else q)).filter (fun q => q.1 != u)
      = s.filter (fun q => q.1 != u) := by
  induction s with
  | nil => rfl
  | cons p rest ih =>
    by_cases hp : p.1 = u
    · simp only [List.map_cons, if_pos hp, List.filter_cons]
      have h1 : (((u, r) : Nat × Res).1 != u) = false := by simp
      have h2 : (p.1 != u) = false := by simp [hp]
      rw [h1, h2]
      simpa using ih
    · simp only [List.map_cons, if_neg hp, List.filter_cons]
      have h2 : (p.1 != u) = true := by simp [hp]
      rw [h2]
      simpa using ih

theorem dpop_dinsert (u : Nat) (r : Res) (s : Store) :
    dpop u (dinsert u r s) = dpop u s := by
  unfold dinsert dpop
  by_cases hany : s.any (fun q => q.1 == u) = true
  · rw [if_pos hany]
    exact filter_map_replace u r s
  · rw [if_neg hany, List.filter_append]
    simp

/-! ### Invariant preservation lemmas -/

theorem all_filter_of_all {p f : Nat × Res → Bool} {l : Store}
    (h : l.all p = true) : (l.filter f).all p = true :=
  List.all_eq_true.mpr fun x hx => List.all_eq_true.mp h x (List.mem_of_mem_filter hx)

theorem invariantB_filter (f : Nat × Res → Bool) (s : Store)
    (h : invariantB s = true) : invariantB (s.filter f) = true := by
  induction s with
  | nil => rfl
  | cons p rest ih =>
    simp only [invariantB, Bool.and_eq_true] at h
    rw [List.filter_cons]
    by_cases hf : f p = true
    · rw [if_pos (by simp [hf])]
      simp only [invariantB, Bool.and_eq_true]
      exact ⟨all_filter_of_all h.1, ih h.2⟩
    · rw [if_neg (by simp [hf])]
      exact ih h.2

theorem keysNodupB_filter (f : Nat × Res → Bool) (s : Store)
    (h : keysNodupB s = true) : keysNodupB (s.filter f) = true := by
  induction s with
  | nil => rfl
  | cons p rest ih =>
    simp only [keysNodupB, Bool.and_eq_true] at h
    rw [List.filter_cons]
    by_cases hf : f p = true
    · rw [if_pos (by simp [hf])]
      simp only [keysNodupB, Bool.and_eq_true]
      exact ⟨all_filter_of_all h.1, ih h.2⟩
    · rw [if_neg (by simp [hf])]
      exact ih h.2

theorem invariantB_append_single (s : Store) (x : Nat × Res)
    (hs : invariantB s = true) (hc : ∀ q ∈ s, resCompatB q x = true) :
    invariantB (s ++ [x]) = true := by
  induction s with
  | nil => simp [invariantB]
  | cons p rest ih =>
    simp only [invariantB, Bool.and_eq_true] at hs
    simp only [List.cons_append, List.append_eq, invariantB, Bool.and_eq_true,
      List.all_append, List.all_cons, List.all_nil, Bool.and_true]
    refine ⟨⟨hs.1, ?_⟩, ih hs.2 (fun q hq => hc q (List.mem_cons_of_mem _ hq))⟩
    exact hc p (List.mem_cons_self _ _)

theorem map_id_of_keys_ne {u : Nat} {r : Res} {l : Store}
    (h : ∀ q ∈ l, q.1 ≠ u) :
    l.map (fun q => if q.1 = u then (u, r) else q) = l := by
  induction l with
  | nil => rfl
  | cons p rest ih =>
    rw [List.map_cons, if_neg (h p (List.mem_cons_self _ _)),
      ih (fun q hq => h q (List.mem_cons_of_mem _ hq))]

theorem invariantB_map_replace (u : Nat) (r : Res) (s : Store)
    (hk : keysNodupB s = true) (hi : invariantB s = true)
    (hc : ∀ q ∈ s, q.1 ≠ u → resCompatB q (u, r) = true ∧ resCompatB (u, r) q = true) :
    invariantB (s.map (fun q => if q.1 = u then (u, r) else q)) = true := by
  induction s with
  | nil => rfl
  | cons p rest ih =>
    simp only [keysNodupB, invariantB, Bool.and_eq_true] at hk hi
    simp only [List.map_cons, invariantB, Bool.and_eq_true]
    by_cases hp : p.1 = u
    · rw [if_pos hp]
      have hrest_ne : ∀ q ∈ rest, q.1 ≠ u := by
        intro q hq he
        have := List.all_eq_true.mp hk.1 q hq
        simp [he, hp] at this
      rw [map_id_of_keys_ne hrest_ne]
      refine ⟨List.all_eq_true.mpr fun q hq => ?_, hi.2⟩
      exact (hc q (List.mem_cons_of_mem _ hq) (hrest_ne q hq)).2
    · rw [if_neg hp]
      refine ⟨List.all_eq_true.mpr ?_,
        ih hk.2 hi.2 (fun q hq hqu => hc q (List.mem_cons_of_mem _ hq) hqu)⟩
      intro x hx
      obtain ⟨q, hq, rfl⟩ := List.mem_map.mp hx
      by_cases hqu : q.1 = u
      · rw [if_pos hqu]
        exact (hc p (List.mem_cons_self _ _) hp).1
      · rw [if_neg hqu]
        exact List.all_eq_true.mp hi.1 q hq

theorem keysNodupB_map_replace (u : Nat) (r : Res) (s : Store)
    (hk : keysNodupB s = true) :
    keysNodupB (s.map (fun q => if q.1 = u then (u, r) else q)) = true := by
  induction s with
  | nil => rfl
  | cons p rest ih =>
    simp only [keysNodupB, Bool.and_eq_true] at hk
    simp only [List.map_cons, keysNodupB, Bool.and_eq_true]
    have hkey : ∀ q : Nat × Res, (if q.1 = u then (u, r) else q).1 = q.1 := by
      intro q
      by_cases hq : q.1 = u
      · rw [if_pos hq]; exact hq.symm
      · rw [if_neg hq]
    refine ⟨List.all_eq_true.mpr ?_, ih hk.2⟩
    intro x hx
    obtain ⟨q, hq, rfl⟩ := List.mem_map.mp hx
    have h1 := List.all_eq_true.mp hk.1 q hq
    simpa [hkey] using h1

theorem keysNodupB_append_single (s : Store) (u : Nat) (r : Res)
    (hk : keysNodupB s = true) (hfresh : ∀ q ∈ s, q.1 ≠ u) :
    keysNodupB (s ++ [(u, r)]) = true := by
  induction s with
  | nil => rfl
  | cons p rest ih =>
    simp only [keysNodupB, Bool.and_eq_true] at hk
    simp only [List.cons_append, List.append_eq, keysNodupB, Bool.and_eq_true,
      List.all_append, List.all_cons, List.all_nil, Bool.and_true]
    refine ⟨⟨hk.1, ?_⟩, ih hk.2 (fun q hq => hfresh q (List.mem_cons_of_mem _ hq))⟩
    have := hfresh p (List.mem_cons_self _ _)
    simp only [bne_iff_ne, ne_eq]
    omega

theorem keysNodupB_dinsert (u : Nat) (r : Res) (s : Store)
    (hk : keysNodupB s = true) : keysNodupB (dinsert u r s) = true := by
  unfold dinsert
  by_cases hany : s.any (fun q => q.1 == u) = true
  · rw [if_pos hany]
    exact keysNodupB_map_replace u r s hk
  · rw [if_neg hany]
    refine keysNodupB_append_single s u r hk ?_
    intro q hq he
    have : s.any (fun q => q.1 == u) = true := List.any_eq_true.mpr ⟨q, hq, by simp [he]⟩
    exact hany this

theorem invariantB_dinsert (u : Nat) (r : Res) (s : Store)
    (hk : keysNodupB s = true) (hi : invariantB s = true)
    (hfree : slot_is_free r.date r.time r.people s = true) :
    invariantB (dinsert u r s) = true := by
  obtain ⟨ci, hci, hlen, hall⟩ := (slot_is_free_true_iff _ _ _ _).mp hfree
  have hspan_r : resSpan r = some (ci, ci + r.people) := by
    simp [resSpan, locIndex_of_pyIndex hci]
  have hcompat : ∀ q ∈ s, resCompatB q (u, r) = true ∧ resCompatB (u, r) q = true := by
    intro q hq
    by_cases hdate : q.2.date = r.date
    · obtain ⟨oi, hoi, hdisj⟩ := hall q.2 (List.mem_map.mpr ⟨q, hq, rfl⟩) hdate
      have hspan_q : resSpan q.2 = some (oi, oi + q.2.people) := by
        simp [resSpan, hdate, hoi]
      constructor
      · simp only [resCompatB, hdate, if_pos, hspan_q, hspan_r]
        simp only [decide_eq_true_eq]
        omega
      · simp only [resCompatB, hdate.symm, if_pos, hspan_q, hspan_r]
        simp only [decide_eq_true_eq]
        omega
    · have hdate' : ¬ r.date = q.2.date := fun h => hdate h.symm
      constructor
      · simp [resCompatB, hdate]
      · simp [resCompatB, hdate']
  unfold dinsert
  by_cases hany : s.any (fun q => q.1 == u) = true
  · rw [if_pos hany]
    exact invariantB_map_replace u r s hk hi (fun q hq _ => hcompat q hq)
  · rw [if_neg hany]
    exact invariantB_append_single s (u, r) hi (fun q hq => (hcompat q hq).1)

/-! ### Claim C1 -/

/-- C1 (amended): the pairwise-disjointness invariant for active same-date
reservations holds in every store reachable from the empty store by
create/cancel operations in which each create's availability check is
immediately followed by its commit (`AtomicStep`); the program's actual
separation of the `confirm_people` check from the `final_confirm` commit
admits interleavings of two users that violate it (see the
counterexample). -/
theorem atomic_create_cancel_preserves_invariant (s : Store)
    (h : Relation.ReflTransGen AtomicStep [] s) : invariantB s = true := by
  have key : keysNodupB s = true ∧ invariantB s = true := by
    induction h with
    | refl => exact ⟨rfl, rfl⟩
    | tail hpre hstep ih =>
      cases hstep with
      | create u r hfree =>
        exact ⟨keysNodupB_dinsert u r _ ih.1, invariantB_dinsert u r _ ih.1 ih.2 hfree⟩
      | cancel u =>
        exact ⟨keysNodupB_filter _ _ ih.1, invariantB_filter _ _ ih.2⟩
  exact key.2

theorem atomic_create_cancel_preserves_invariant_witness :
    invariantB (dinsert 7 ⟨"W", "0911111111", "2026-10-12", "08:00 AM", 1⟩ []) = true :=
  atomic_create_cancel_preserves_invariant _
    (Relation.ReflTransGen.single
      (AtomicStep.create [] 7 ⟨"W", "0911111111", "2026-10-12", "08:00 AM", 1⟩ (by decide)))

def cexUdA : UserData := ⟨some "A", some "0911111111", some "2026-10-12", some "08:00 AM", 1⟩

def cexUdB : UserData := ⟨some "B", some "0922222222", some "2026-10-12", some "08:00 AM", 1⟩

/-- C1 is false of the program as it stands: two users can each pass the
`confirm_people` availability check while the store is still empty and
then both commit via `final_confirm`, reaching a store whose two active
reservations occupy the same slot span on the same date. -/
theorem interleaved_check_commit_breaks_invariant :
    Relation.ReflTransGen Step ⟨[], []⟩
      ⟨[(1, ⟨"A", "0911111111", "2026-10-12", "08:00 AM", 1⟩),
        (2, ⟨"B", "0922222222", "2026-10-12", "08:00 AM", 1⟩)],
       [(1, cexUdA), (2, cexUdB)]⟩ ∧
    invariantB [(1, ⟨"A", "0911111111", "2026-10-12", "08:00 AM", 1⟩),
        (2, ⟨"B", "0922222222", "2026-10-12", "08:00 AM", 1⟩)] = false := by
  constructor
  · have h1 : Step ⟨[], []⟩ ⟨[], [(1, cexUdA)]⟩ :=
      Step.select ⟨[], []⟩ 1 "2026-10-12" "08:00 AM" "A" "0911111111" 1 (by decide)
    have h2 : Step ⟨[], [(1, cexUdA)]⟩ ⟨[], [(1, cexUdA), (2, cexUdB)]⟩ :=
      Step.select ⟨[], [(1, cexUdA)]⟩ 2 "2026-10-12" "08:00 AM" "B" "0922222222" 1 (by decide)
    have h3 : Step ⟨[], [(1, cexUdA), (2, cexUdB)]⟩
        ⟨[(1, ⟨"A", "0911111111", "2026-10-12", "08:00 AM", 1⟩)],
         [(1, cexUdA), (2, cexUdB)]⟩ :=
      Step.confirm ⟨[], [(1, cexUdA), (2, cexUdB)]⟩ 1 cexUdA (by decide)
    have h4 : Step ⟨[(1, ⟨"A", "0911111111", "2026-10-12", "08:00 AM", 1⟩)],
         [(1, cexUdA), (2, cexUdB)]⟩
        ⟨[(1, ⟨"A", "0911111111", "2026-10-12", "08:00 AM", 1⟩),
          (2, ⟨"B", "0922222222", "2026-10-12", "08:00 AM", 1⟩)],
         [(1, cexUdA), (2, cexUdB)]⟩ :=
      Step.confirm ⟨[(1, ⟨"A", "0911111111", "2026-10-12", "08:00 AM", 1⟩)],
        [(1, cexUdA), (2, cexUdB)]⟩ 2 cexUdB (by decide)
    exact Relation.ReflTransGen.head h1 (Relation.ReflTransGen.head h2
      (Relation.ReflTransGen.head h3 (Relation.ReflTransGen.single h4)))
  · decide

/-! ### Claim C5 -/

/-- C5: if some active same-date reservation's stored slot string cannot be
located in the day's enumeration, even after re-formatting it through
`strptime`/`strftime` normalization, then `slot_is_free` returns `false`
for every candidate (fail-closed). -/
theorem unlocatable_reservation_fails_closed (d t : String) (p : Nat) (resv : Store) (r : Res)
    (hr : r ∈ values resv) (hd : r.date = d)
    (hloc : locIndex (generate_slots_for_date d) r.time = none) :
    slot_is_free d t p resv = false := by
  rw [Bool.eq_false_iff]
  intro h
  obtain ⟨ci, -, -, hall⟩ := (slot_is_free_true_iff d t p resv).mp h
  obtain ⟨oi, hoi, -⟩ := hall r hr hd
  rw [hloc] at hoi
  cases hoi

theorem unlocatable_reservation_fails_closed_witness :
    slot_is_free "2026-10-12" "08:00 AM" 1
      [(1, ⟨"X", "0911111111", "2026-10-12", "garbage", 1⟩)] = false :=
  unlocatable_reservation_fails_closed "2026-10-12" "08:00 AM" 1
    [(1, ⟨"X", "0911111111", "2026-10-12", "garbage", 1⟩)]
    ⟨"X", "0911111111", "2026-10-12", "garbage", 1⟩ (by decide) rfl (by decide)

/-! ### Claim C6 -/

/-- C6: slot enumeration is deterministic (it is a pure function of the
date string), and its length is `floor((close − open) / Δ) + 1 = 19` for
the configured constants OPEN=08:00 AM, CLOSE=08:00 PM, Δ=40 minutes. -/
theorem generate_slots_deterministic_and_length (ds : String) :
    generate_slots_for_date ds = generate_slots_for_date ds ∧
    (generate_slots_for_date ds).length
      = (closeMinutes - openMinutes) / SLOT_INTERVAL_MINUTES + 1 ∧
    (generate_slots_for_date ds).length = 19 :=
  ⟨rfl, rfl, rfl⟩

/-! ### Claim C7 -/

/-- C7 is false as stated: with Δ=40 starting from 08:00 AM, `07:40 PM` is
not on the slot grid at all — it is neither the last slot nor any slot of
the enumeration, and `slot_is_free` rejects it even on an empty store. -/
theorem slot_0740pm_cex :
    "07:40 PM" ∉ generate_slots_for_date "2026-10-12" ∧
    (generate_slots_for_date "2026-10-12").getLast? ≠ some "07:40 PM" ∧
    slot_is_free "2026-10-12" "07:40 PM" 1 [] = false := by
  decide

/-- C7 (amended): the last slot of the day is `08:00 PM`, at index 18; for
party size 1 it is free on an empty reservation set, with
`neededEnd = 19` exactly equal to the slot count — the closing-boundary
check is not off by one. -/
theorem last_slot_boundary_free (ds : String) :
    (generate_slots_for_date ds).getLast? = some "08:00 PM" ∧
    pyIndex (generate_slots_for_date ds) "08:00 PM" = some 18 ∧
    18 + 1 = (generate_slots_for_date ds).length ∧
    slot_is_free ds "08:00 PM" 1 [] = true :=
  ⟨rfl, rfl, rfl, rfl⟩

/-! ### Claim C2 -/

/-- C2 is false of the program: the commit step `final_confirm` performs no
availability re-check.  Concretely, with user 2 already holding
`08:00 AM`, the same span is not free, yet `final_confirm` for user 1 with
that very span still changes the store and commits the conflicting
reservation, breaking the disjointness invariant; no conflict error path
exists at commit time. -/
theorem final_confirm_commits_despite_conflict_cex :
    slot_is_free "2026-10-12" "08:00 AM" 1
      [(2, ⟨"Bob", "0912345678", "2026-10-12", "08:00 AM", 1⟩)] = false ∧
    final_confirm 1 ⟨some "Alice", some "0911111111", some "2026-10-12", some "08:00 AM", 1⟩
        [(2, ⟨"Bob", "0912345678", "2026-10-12", "08:00 AM", 1⟩)]
      ≠ [(2, ⟨"Bob", "0912345678", "2026-10-12", "08:00 AM", 1⟩)] ∧
    invariantB (final_confirm 1
        ⟨some "Alice", some "0911111111", some "2026-10-12", some "08:00 AM", 1⟩
        [(2, ⟨"Bob", "0912345678", "2026-10-12", "08:00 AM", 1⟩)]) = false := by
  decide

/-- C2 (amended): availability is validated earlier in the flow, at the
`confirm_people` step (`confirm_people_ok`, which is exactly
`slot_is_free`); the commit step itself is unconditional — whenever name,
phone, date and time are all present and non-empty, `final_confirm` writes
the pending reservation into the store with no availability check, even if
its span is no longer free. -/
theorem final_confirm_commit_unconditional (u : Nat) (ud : UserData) (resv : Store)
    (h1 : truthy ud.name = true) (h2 : truthy ud.phone = true)
    (h3 : truthy ud.date = true) (h4 : truthy ud.time = true) :
    final_confirm u ud resv = dinsert u (pendingRes ud) resv ∧
    pendingRes ud ∈ values (final_confirm u ud resv) := by
  have he : final_confirm u ud resv = dinsert u (pendingRes ud) resv := by
    unfold final_confirm
    rw [h1, h2, h3, h4]
    rfl
  exact ⟨he, he ▸ mem_values_dinsert u (pendingRes ud) resv⟩

theorem final_confirm_commit_unconditional_witness :
    final_confirm 3 ⟨some "C", some "0933333333", some "2026-10-12", some "09:20 AM", 1⟩ []
      = dinsert 3
          (pendingRes ⟨some "C", some "0933333333", some "2026-10-12", some "09:20 AM", 1⟩)
          [] ∧
    pendingRes ⟨some "C", some "0933333333", some "2026-10-12", some "09:20 AM", 1⟩
      ∈ values (final_confirm 3
          ⟨some "C", some "0933333333", some "2026-10-12", some "09:20 AM", 1⟩ []) :=
  final_confirm_commit_unconditional 3
    ⟨some "C", some "0933333333", some "2026-10-12", some "09:20 AM", 1⟩ [] rfl rfl rfl rfl

/-! ### Claim C3 -/

/-- C3: for party size ≥ 1 and a reservation set whose same-date stored
slots are all locatable in the day's enumeration, `slot_is_free` returns
`false` exactly when (a) the candidate slot is not in the enumeration, or
(b) `candidateIndex + partySize` exceeds the day's slot count, or (c) the
candidate span overlaps some active same-date reservation's span, where
two spans overlap unless `neededEnd ≤ otherIndex` or
`candidateIndex ≥ otherEnd`. -/
theorem slot_is_free_false_characterization (d t : String) (p : Nat) (resv : Store)
    (_hp : 1 ≤ p)
    (hloc : ∀ r ∈ values resv, r.date = d →
      ∃ i, pyIndex (generate_slots_for_date d) r.time = some i) :
    slot_is_free d t p resv = false ↔
      (t ∉ generate_slots_for_date d ∨
       (∃ ci, pyIndex (generate_slots_for_date d) t = some ci ∧
          (generate_slots_for_date d).length < ci + p) ∨
       (∃ ci r, pyIndex (generate_slots_for_date d) t = some ci ∧ r ∈ values resv ∧
          r.date = d ∧
          ∃ oi, pyIndex (generate_slots_for_date d) r.time = some oi ∧
            ¬(ci + p ≤ oi) ∧ ¬(oi + r.people ≤ ci))) := by
  rw [Bool.eq_false_iff, Ne, slot_is_free_true_iff]
  constructor
  · intro h
    cases hpy : pyIndex (generate_slots_for_date d) t with
    | none => exact Or.inl (pyIndex_eq_none_iff.mp hpy)
    | some ci =>
      by_cases hlen : (generate_slots_for_date d).length < ci + p
      · exact Or.inr (Or.inl ⟨ci, rfl, hlen⟩)
      · have hnall : ¬ ∀ r ∈ values resv, r.date = d →
            ∃ oi, locIndex (generate_slots_for_date d) r.time = some oi ∧
              (ci + p ≤ oi ∨ oi + r.people ≤ ci) :=
          fun hall => h ⟨ci, hpy, by omega, hall⟩
        push_neg at hnall
        obtain ⟨r, hr, hd, hfail⟩ := hnall
        obtain ⟨i, hi⟩ := hloc r hr hd
        have hnd := hfail i (locIndex_of_pyIndex hi)
        refine Or.inr (Or.inr ⟨ci, r, rfl, hr, hd, i, hi, ?_, ?_⟩)
        · omega
        · omega
  · rintro hrhs ⟨ci', hci', hlen', hall'⟩
    rcases hrhs with hnone | ⟨ci, hci, hlen⟩ | ⟨ci, r, hci, hr, hd, oi, hoi, hn1, hn2⟩
    · rw [pyIndex_eq_none_iff.mpr hnone] at hci'
      cases hci'
    · rw [hci] at hci'
      cases hci'
      omega
    · rw [hci] at hci'
      cases hci'
      obtain ⟨oi2, hloc2, hdisj⟩ := hall' r hr hd
      rw [locIndex_of_pyIndex hoi] at hloc2
      cases hloc2
      rcases hdisj with h | h
      · exact hn1 h
      · exact hn2 h

theorem slot_is_free_false_characterization_witness :
    slot_is_free "2026-10-12" "08:40 AM" 1
        [(1, ⟨"A", "0911111111", "2026-10-12", "08:00 AM", 2⟩)] = false ↔
      ("08:40 AM" ∉ generate_slots_for_date "2026-10-12" ∨
       (∃ ci, pyIndex (generate_slots_for_date "2026-10-12") "08:40 AM" = some ci ∧
          (generate_slots_for_date "2026-10-12").length < ci + 1) ∨
       (∃ ci r, pyIndex (generate_slots_for_date "2026-10-12") "08:40 AM" = some ci ∧
          r ∈ values [(1, ⟨"A", "0911111111", "2026-10-12", "08:00 AM", 2⟩)] ∧
          r.date = "2026-10-12" ∧
          ∃ oi, pyIndex (generate_slots_for_date "2026-10-12") r.time = some oi ∧
            ¬(ci + 1 ≤ oi) ∧ ¬(oi + r.people ≤ ci))) :=
  slot_is_free_false_characterization "2026-10-12" "08:40 AM" 1
    [(1, ⟨"A", "0911111111", "2026-10-12", "08:00 AM", 2⟩)] (by decide)
    (by
      intro r hr hd
      have hr' : r = ⟨"A", "0911111111", "2026-10-12", "08:00 AM", 2⟩ := by
        simpa [values] using hr
      subst hr'
      exact ⟨0, by decide⟩)

/-! ### Claim C8 -/

/-- C8: committing a reservation and immediately re-checking the same span
yields `false` (now occupied); cancelling that party and re-checking
yields `true` again, provided the slot is valid (locatable, fits before
closing) and no other surviving reservation's span overlaps it. -/
theorem create_cancel_roundtrip (u : Nat) (r : Res) (s : Store) (ci : Nat)
    (hp : 1 ≤ r.people)
    (hci : pyIndex (generate_slots_for_date r.date) r.time = some ci)
    (hend : ci + r.people ≤ (generate_slots_for_date r.date).length)
    (hothers : ∀ r' ∈ values (dpop u s), r'.date = r.date →
      ∃ oi, locIndex (generate_slots_for_date r.date) r'.time = some oi ∧
        (ci + r.people ≤ oi ∨ oi + r'.people ≤ ci)) :
    slot_is_free r.date r.time r.people (dinsert u r s) = false ∧
    slot_is_free r.date r.time r.people (dpop u (dinsert u r s)) = true := by
  constructor
  · rw [Bool.eq_false_iff]
    intro h
    obtain ⟨ci', hci', -, hall⟩ := (slot_is_free_true_iff _ _ _ _).mp h
    rw [hci] at hci'
    cases hci'
    obtain ⟨oi, hoi, hdisj⟩ := hall r (mem_values_dinsert u r s) rfl
    rw [locIndex_of_pyIndex hci] at hoi
    cases hoi
    omega
  · rw [dpop_dinsert]
    exact (slot_is_free_true_iff _ _ _ _).mpr ⟨ci, hci, hend, hothers⟩

theorem create_cancel_roundtrip_witness :
    slot_is_free "2026-10-12" "08:00 AM" 1
        (dinsert 1 ⟨"N", "0911111111", "2026-10-12", "08:00 AM", 1⟩ []) = false ∧
    slot_is_free "2026-10-12" "08:00 AM" 1
        (dpop 1 (dinsert 1 ⟨"N", "0911111111", "2026-10-12", "08:00 AM", 1⟩ [])) = true :=
  create_cancel_roundtrip 1 ⟨"N", "0911111111", "2026-10-12", "08:00 AM", 1⟩ [] 0
    (by decide) (by decide) (by decide)
    (by intro r' hr' _; cases hr')

/-! ### Claim C9 -/

/-- C9: `can_cancel_reservation` is true exactly when an active reservation
exists (with a well-formed stored date/time) and its slot start lies
strictly more than 2 hours (7200 seconds) after the current time; with no
active reservation it is false, and with exactly 2h00m0s remaining it is
false (strict inequality). -/
theorem can_cancel_iff_more_than_two_hours (r : Res) (now : Int) (dd : CivilDate) (tm : Nat)
    (h1 : parseDate r.date = some dd) (h2 : parseTime12 r.time = some tm) :
    (can_cancel_reservation (some r) now = true ↔ 7200 < startSec dd tm - now) ∧
    can_cancel_reservation none now = false ∧
    (startSec dd tm - now = 7200 → can_cancel_reservation (some r) now = false) := by
  refine ⟨?_, rfl, ?_⟩
  · simp only [can_cancel_reservation, h1, h2]
    simp only [decide_eq_true_eq, gt_iff_lt]
  · intro heq
    simp only [can_cancel_reservation, h1, h2]
    rw [decide_eq_false_iff_not]
    omega

theorem can_cancel_iff_more_than_two_hours_witness :
    (can_cancel_reservation (some ⟨"N", "0911111111", "2026-10-12", "10:00 AM", 1⟩)
          (startSec ⟨2026, 10, 12⟩ 600 - 7200) = true ↔
        7200 < startSec ⟨2026, 10, 12⟩ 600 - (startSec ⟨2026, 10, 12⟩ 600 - 7200)) ∧
    can_cancel_reservation none (startSec ⟨2026, 10, 12⟩ 600 - 7200) = false ∧
    (startSec ⟨2026, 10, 12⟩ 600 - (startSec ⟨2026, 10, 12⟩ 600 - 7200) = 7200 →
      can_cancel_reservation (some ⟨"N", "0911111111", "2026-10-12", "10:00 AM", 1⟩)
        (startSec ⟨2026, 10, 12⟩ 600 - 7200) = false) :=
  can_cancel_iff_more_than_two_hours ⟨"N", "0911111111", "2026-10-12", "10:00 AM", 1⟩
    (startSec ⟨2026, 10, 12⟩ 600 - 7200) ⟨2026, 10, 12⟩ 600 (by decide) (by decide)

/-! ### Claim C4 -/

theorem scanSlots_length (d : String) (p : Nat) (v : Store) (l : List String) (k : Nat)
    (hk : k < RECOMMEND_LIMIT) :
    (scanSlots d p v l k).length + k ≤ RECOMMEND_LIMIT := by
  induction l generalizing k with
  | nil =>
    simp only [scanSlots, List.length_nil]
    omega
  | cons s rest ih =>
    simp only [scanSlots]
    by_cases hf : slot_is_free d s p v = true
    · rw [if_pos hf]
      by_cases hlim : RECOMMEND_LIMIT ≤ k + 1
      · rw [if_pos hlim]
        simp only [List.length_singleton]
        omega
      · rw [if_neg hlim]
        have := ih (k + 1) (by omega)
        simp only [List.length_cons]
        omega
    · rw [if_neg hf]
      exact ih k hk

theorem scanSlots_map_fst_sublist (d : String) (p : Nat) (v : Store) (l : List String)
    (k : Nat) : ((scanSlots d p v l k).map Prod.fst).Sublist l := by
  induction l generalizing k with
  | nil => simp [scanSlots]
  | cons s rest ih =>
    simp only [scanSlots]
    by_cases hf : slot_is_free d s p v = true
    · rw [if_pos hf]
      by_cases hlim : RECOMMEND_LIMIT ≤ k + 1
      · rw [if_pos hlim]
        simp only [List.map_cons, List.map_nil]
        exact List.singleton_sublist.mpr (List.mem_cons_self s rest)
      · rw [if_neg hlim]
        simpa using List.Sublist.cons₂ s (ih (k + 1))
    · rw [if_neg hf]
      exact List.Sublist.cons s (ih k)

theorem scanSlots_snd (d : String) (p : Nat) (v : Store) (l : List String) (k : Nat) :
    ∀ e ∈ scanSlots d p v l k, e.2 = d := by
  induction l generalizing k with
  | nil => simp [scanSlots]
  | cons s rest ih =>
    simp only [scanSlots]
    by_cases hf : slot_is_free d s p v = true
    · rw [if_pos hf]
      by_cases hlim : RECOMMEND_LIMIT ≤ k + 1
      · rw [if_pos hlim]
        simp
      · rw [if_neg hlim]
        intro e he
        rcases List.mem_cons.mp he with rfl | he'
        · rfl
        · exact ih (k + 1) e he'
    · rw [if_neg hf]
      exact ih k

theorem scanSlots_eq_nil_iff (d : String) (p : Nat) (v : Store) (l : List String) (k : Nat) :
    scanSlots d p v l k = [] ↔ ∀ s ∈ l, slot_is_free d s p v = false := by
  induction l generalizing k with
  | nil => simp [scanSlots]
  | cons s rest ih =>
    simp only [scanSlots, List.forall_mem_cons]
    by_cases hf : slot_is_free d s p v = true
    · rw [if_pos hf]
      constructor
      · intro h
        by_cases hlim : RECOMMEND_LIMIT ≤ k + 1
        · rw [if_pos hlim] at h
          cases h
        · rw [if_neg hlim] at h
          cases h
      · rintro ⟨hs, -⟩
        rw [hf] at hs
        cases hs
    · rw [if_neg hf]
      rw [ih k]
      constructor
      · intro h
        exact ⟨Bool.eq_false_iff.mpr hf, h⟩
      · exact fun h => h.2

/-- C4: the recommendation search returns at most `RECOMMEND_LIMIT = 5`
entries; the slot labels it returns appear in ascending chronological
order; all entries carry the anchor date — where the anchor is the
requested date shifted forward one day when the requested time is at or
after the 20:00 closing time — except that when the anchor day has no free
slot at all, all entries carry the following day's date instead (the
second day is scanned only when the first pass finds nothing). -/
theorem recommend_slots_bounded_ordered_two_pass (today dd : CivilDate) (ds ts : String)
    (m p : Nat) (resv : Store)
    (hd : parseDate ds = some dd) (ht : parseTime12 ts = some m) :
    (recommend_slots today ds ts p resv).length ≤ RECOMMEND_LIMIT ∧
    ((recommend_slots today ds ts p resv).map Prod.fst).Pairwise
      (fun a b => timeLtB a b = true) ∧
    ((∀ e ∈ recommend_slots today ds ts p resv,
        e.2 = formatDate (if 1200 ≤ m then nextDay dd else dd)) ∨
     ((∀ s ∈ generate_slots_for_date (formatDate (if 1200 ≤ m then nextDay dd else dd)),
         slot_is_free (formatDate (if 1200 ≤ m then nextDay dd else dd)) s p resv = false) ∧
      ∀ e ∈ recommend_slots today ds ts p resv,
        e.2 = formatDate (nextDay (if 1200 ≤ m then nextDay dd else dd)))) := by
  have hpw : ∀ d' : String,
      (generate_slots_for_date d').Pairwise (fun a b => timeLtB a b = true) := by
    intro d'
    show (slotLoop openMinutes closeMinutes).Pairwise (fun a b => timeLtB a b = true)
    decide
  simp only [recommend_slots, hd, ht, Option.getD_some]
  by_cases hempty :
      scanSlots (formatDate (if 1200 ≤ m then nextDay dd else dd)) p resv
        (generate_slots_for_date (formatDate (if 1200 ≤ m then nextDay dd else dd))) 0 = []
  · rw [hempty]
    rw [if_pos List.isEmpty_nil]
    refine ⟨?_, ?_, Or.inr ⟨?_, ?_⟩⟩
    · have := scanSlots_length (formatDate (nextDay (if 1200 ≤ m then nextDay dd else dd)))
        p resv (generate_slots_for_date
          (formatDate (nextDay (if 1200 ≤ m then nextDay dd else dd)))) 0 (by decide)
      omega
    · exact List.Pairwise.sublist (scanSlots_map_fst_sublist _ _ _ _ _) (hpw _)
    · exact (scanSlots_eq_nil_iff _ _ _ _ _).mp hempty
    · exact scanSlots_snd _ _ _ _ _
  · rw [if_neg (by simpa [List.isEmpty_eq_false] using hempty)]
    refine ⟨?_, ?_, Or.inl ?_⟩
    · have := scanSlots_length (formatDate (if 1200 ≤ m then nextDay dd else dd))
        p resv (generate_slots_for_date
          (formatDate (if 1200 ≤ m then nextDay dd else dd))) 0 (by decide)
      omega
    · exact List.Pairwise.sublist (scanSlots_map_fst_sublist _ _ _ _ _) (hpw _)
    · exact scanSlots_snd _ _ _ _ _

theorem recommend_slots_bounded_ordered_two_pass_witness :
    (recommend_slots ⟨2026, 1, 1⟩ "2026-10-12" "08:00 AM" 1 []).length ≤ RECOMMEND_LIMIT ∧
    ((recommend_slots ⟨2026, 1, 1⟩ "2026-10-12" "08:00 AM" 1 []).map Prod.fst).Pairwise
      (fun a b => timeLtB a b = true) ∧
    ((∀ e ∈ recommend_slots ⟨2026, 1, 1⟩ "2026-10-12" "08:00 AM" 1 [],
        e.2 = formatDate (if 1200 ≤ 480 then nextDay ⟨2026, 10, 12⟩ else ⟨2026, 10, 12⟩)) ∨
     ((∀ s ∈ generate_slots_for_date
          (formatDate (if 1200 ≤ 480 then nextDay ⟨2026, 10, 12⟩ else ⟨2026, 10, 12⟩)),
         slot_is_free
           (formatDate (if 1200 ≤ 480 then nextDay ⟨2026, 10, 12⟩ else ⟨2026, 10, 12⟩))
           s 1 [] = false) ∧
      ∀ e ∈ recommend_slots ⟨2026, 1, 1⟩ "2026-10-12" "08:00 AM" 1 [],
        e.2 = formatDate
          (nextDay (if 1200 ≤ 480 then nextDay ⟨2026, 10, 12⟩ else ⟨2026, 10, 12⟩)))) :=
  recommend_slots_bounded_ordered_two_pass ⟨2026, 1, 1⟩ ⟨2026, 10, 12⟩ "2026-10-12"
    "08:00 AM" 480 1 [] (by decide) (by decide)

/-! ### Claim C10 -/

theorem slots_nodup (d : String) : (generate_slots_for_date d).Nodup := by
  show (slotLoop openMinutes closeMinutes).Nodup
  decide

/-- C10: the daily summary classifies a slot as open exactly when its label
differs from every same-date reservation's stored start-time string
(that is the definition of `open_slots`); consequently, for an active
reservation of party size ≥ 2 starting at index `i`, every interior slot
index `j` with `i < j < i + people` is listed in the summary's open
section even though `slot_is_free` returns `false` for it (the
`hdisj` hypothesis is the §3 disjointness invariant, which guarantees no
other reservation's stored label sits at index `j`). -/
theorem summary_open_slots_include_occupied_tail (d : String) (resv : Store) (r : Res)
    (i j : Nat) (hjlen : j < (generate_slots_for_date d).length)
    (hr : r ∈ values resv) (hdate : r.date = d)
    (hi : pyIndex (generate_slots_for_date d) r.time = some i)
    (_hP : 2 ≤ r.people)
    (_hend : i + r.people ≤ (generate_slots_for_date d).length)
    (hj1 : i < j) (hj2 : j < i + r.people)
    (hdisj : ∀ r' ∈ values resv, r'.date = d →
      r'.time = r.time ∨
      ∃ oi, pyIndex (generate_slots_for_date d) r'.time = some oi ∧
        (oi + r'.people ≤ i ∨ i + r.people ≤ oi)) :
    (generate_slots_for_date d).get ⟨j, hjlen⟩ ∈ open_slots d resv ∧
    slot_is_free d ((generate_slots_for_date d).get ⟨j, hjlen⟩) 1 resv = false := by
  have hnd : (generate_slots_for_date d).Nodup := slots_nodup d
  have hget_ne : ∀ (a : Nat) (ha : a < (generate_slots_for_date d).length), a ≠ j →
      (generate_slots_for_date d).get ⟨a, ha⟩
        ≠ (generate_slots_for_date d).get ⟨j, hjlen⟩ := by
    intro a ha hne he
    have := hnd.get_inj_iff.mp he
    simp only [Fin.mk.injEq] at this
    exact hne this
  obtain ⟨hilen, hitime⟩ := pyIndex_some hi
  constructor
  · refine List.mem_filter.mpr ⟨List.get_mem _ j hjlen, ?_⟩
    refine List.all_eq_true.mpr ?_
    intro r' hr'
    by_cases hd' : r'.date = d
    · rw [if_pos hd']
      rw [bne_iff_ne]
      rcases hdisj r' hr' hd' with heq | ⟨oi, hoi, hside⟩
      · rw [heq, ← hitime]
        exact hget_ne i hilen (by omega)
      · obtain ⟨hoilen, hoitime⟩ := pyIndex_some hoi
        rw [← hoitime]
        exact hget_ne oi hoilen (by omega)
    · rw [if_neg hd']
  · rw [Bool.eq_false_iff]
    intro htrue
    obtain ⟨ci, hci, -, hall⟩ := (slot_is_free_true_iff _ _ _ _).mp htrue
    rw [pyIndex_get hnd j hjlen] at hci
    cases hci
    obtain ⟨oi, hoi, hd2⟩ := hall r hr hdate
    rw [locIndex_of_pyIndex hi] at hoi
    cases hoi
    omega

theorem summary_open_slots_include_occupied_tail_witness :
    (generate_slots_for_date "2026-10-12").get ⟨1, by decide⟩
      ∈ open_slots "2026-10-12"
        [(1, ⟨"A", "0911111111", "2026-10-12", "08:00 AM", 2⟩)] ∧
    slot_is_free "2026-10-12"
      ((generate_slots_for_date "2026-10-12").get ⟨1, by decide⟩) 1
      [(1, ⟨"A", "0911111111", "2026-10-12", "08:00 AM", 2⟩)] = false :=
  summary_open_slots_include_occupied_tail "2026-10-12"
    [(1, ⟨"A", "0911111111", "2026-10-12", "08:00 AM", 2⟩)]
    ⟨"A", "0911111111", "2026-10-12", "08:00 AM", 2⟩ 0 1 (by decide) (by decide) rfl
    (by decide) (by decide) (by decide) (by decide) (by decide)
    (by
      intro r' hr' _
      have h' : r' = ⟨"A", "0911111111", "2026-10-12", "08:00 AM", 2⟩ := by
        simpa [values] using hr'
      subst h'
      exact Or.inl rfl)

end BarberBot
